import Mathlib

/-!
Verification development for a brainfuck interpreter library (`src/lib.rs`).

The library has two subsystems:
* an execution context (`Context`) holding a data pointer `dp : usize` and a
  growable byte tape `data : Vec<u8>`, with operations `execute`, `setdata`,
  `getdata`, `cur_data`, `set_cur_data`, `getbyte`;
* a recursive-descent parser (`parse`, `parse_char`, `parse_loop`) from a
  character stream to a `Program` (list of `Ast` nodes).

The embedding below models `u8` cells as `Nat` with explicit `% 256`
arithmetic, `usize` as `Nat` with explicit `% USIZE` arithmetic where
`USIZE = 2 ^ 64` (the reference platform is 64-bit), and the `Vec<u8>` tape as
`List Nat`.  Code that performs I/O is modelled by passing streams explicitly:
`execute` takes a list of byte-read results (one per `,` operation, each being
the outcome of a `Context::getbyte` call) and returns the emitted output
bytes; `getbyte` itself takes the list of `read_line` outcomes.  Possibly
non-terminating or stream-consuming recursions take a fuel parameter;
`none` means the fuel was insufficient (the real program would still be
running or blocked), and all claims quantify over, or instantiate, the fuel.
-/

namespace Brainfsk

/-- Brainfuck command (`enum Command` in the source). -/
inductive Command where
  | IncPointer
  | DecPointer
  | IncData
  | DecData
  | GetByte
  | PutByte
deriving DecidableEq, Repr

/-- Node in a brainfuck AST (`enum Ast`): an operation or a loop owning a
nested program. -/
inductive Ast where
  | Op (c : Command)
  | Loop (p : List Ast)

/-- A brainfuck program is just a list of AST nodes (`type Program = Vec<Ast>`). -/
abbrev Program := List Ast

/-- The word size of the reference platform: `usize` is 64 bits wide, so all
pointer arithmetic is modulo `2 ^ 64`. -/
def USIZE : Nat := 2 ^ 64

/-- Context in which a brainfuck program executes (`struct Context`):
data pointer and data tape. -/
structure Context where
  dp : Nat
  data : List Nat
deriving DecidableEq, Repr

/-- `Context::setdata`: if `address` is at or beyond the current length, the
tape is extended with `address - len + 1` zero cells; then the cell at
`address` is overwritten.  (The source's `assert!` and panic-freedom are
modelled by `setdataNoPanic` below.) -/
def Context.setdata (c : Context) (address value : Nat) : Context :=
  if c.data.length ≤ address then
    { c with data := (c.data ++ List.replicate (address - c.data.length + 1) 0).set address value }
  else
    { c with data := c.data.set address value }

/-- `Context::getdata`: 0 at or beyond the materialized length, the stored
byte otherwise. -/
def Context.getdata (c : Context) (address : Nat) : Nat :=
  if c.data.length ≤ address then 0 else c.data.getD address 0

/-- `Context::cur_data`: the cell under the data pointer. -/
def Context.cur_data (c : Context) : Nat :=
  c.getdata c.dp

/-- `Context::set_cur_data`: write the cell under the data pointer. -/
def Context.set_cur_data (c : Context) (value : Nat) : Context :=
  c.setdata c.dp value

/-! ### The evaluator (`Context::execute`)

`execute` walks the node list in order.  The outcome carries the final
context, the unconsumed byte-input stream, the emitted output bytes, and the
total number of loop-body entries performed (`iters`), which is how the
"number of iterations" of the Rust `while` loop is observed.  The fuel
bounds the recursion: it decreases by one on every processed node, on every
loop re-entry and at the final empty list, so any terminating run of the Rust
code is reproduced exactly by every sufficiently large fuel, and `none`
means the run was still in progress (or blocked on input) when the fuel ran
out. -/

deriving instance DecidableEq for Except

/-- Outcome of an `execute` call: `Ok(())` with the final state, or the
propagated error `String` of a failed byte read (state at failure kept, as
the Rust code keeps all tape mutations made before the failure). -/
inductive ExecOut where
  | ok (c : Context) (inp : List (Except String Nat)) (out : List Nat) (iters : Nat)
  | err (c : Context) (inp : List (Except String Nat)) (out : List Nat) (iters : Nat) (msg : String)
deriving DecidableEq, Repr

/-- The context component of an outcome. -/
def ExecOut.ctx : ExecOut → Context
  | .ok c _ _ _ => c
  | .err c _ _ _ _ => c

/-- Prefix `o` onto the output and add `k` loop iterations. -/
def ExecOut.addOut (o : List Nat) (k : Nat) : ExecOut → ExecOut
  | .ok c i o2 n => .ok c i (o ++ o2) (k + n)
  | .err c i o2 n m => .err c i (o ++ o2) (k + n) m

/-- `Context::execute`, fueled.  Each arm mirrors the `match *node` arm of the
source: pointer moves are wrapping `usize` arithmetic, cell updates are
wrapping `u8` arithmetic through `cur_data`/`set_cur_data`, `,` consumes the
next `Context::getbyte()` result from `inp` (propagating its error), `.`
emits the current cell, and `Loop` re-reads the cell at the current data
pointer and re-runs the body while it is non-zero. -/
def execute : Nat → Context → List (Except String Nat) → Program → Option ExecOut
  | 0, _, _, _ => none
  | _ + 1, c, inp, [] => some (.ok c inp [] 0)
  | fuel + 1, c, inp, .Op cmd :: rest =>
    match cmd with
    | .IncPointer => execute fuel { c with dp := (c.dp + 1) % USIZE } inp rest
    | .DecPointer => execute fuel { c with dp := (c.dp + (USIZE - 1)) % USIZE } inp rest
    | .IncData => execute fuel (c.set_cur_data ((c.cur_data + 1) % 256)) inp rest
    | .DecData => execute fuel (c.set_cur_data ((c.cur_data + 255) % 256)) inp rest
    | .GetByte =>
      match inp with
      | [] => none
      | .error e :: _ => some (.err c inp [] 0 e)
      | .ok b :: inp2 => execute fuel (c.set_cur_data (b % 256)) inp2 rest
    | .PutByte => (execute fuel c inp rest).map (ExecOut.addOut [c.cur_data] 0)
  | fuel + 1, c, inp, .Loop body :: rest =>
    if c.getdata c.dp = 0 then
      execute fuel c inp rest
    else
      match execute fuel c inp body with
      | none => none
      | some (.err c2 i2 o n m) => some (.err c2 i2 o (n + 1) m)
      | some (.ok c2 i2 o n) => (execute fuel c2 i2 (.Loop body :: rest)).map (ExecOut.addOut o (n + 1))

/-! ### The byte-input collaborator (`Context::getbyte`)

`getbyte` loops over successive `stdin().read_line` outcomes.  The model
takes the list of those outcomes: `Except.error e` is a hard I/O failure and
`Except.ok l` delivers the line content `l` exactly as `read_line` produced
it (including a trailing newline when one was read; the empty list is what
`read_line` yields at end of input).  An exhausted outcome list means every
further `read_line` returns end-of-input, i.e. an empty line, on which the
code's `input.chars().next().unwrap()` panics — modelled by the `panic`
outcome.  Rust's `input.len()` is the UTF-8 byte length and
`input.as_bytes()[0]` is the first UTF-8 byte, hence `utf8Size` /
`utf8FirstByte`. -/

/-- Number of bytes of the UTF-8 encoding of a character. -/
def utf8Size (c : Char) : Nat :=
  if c.toNat < 0x80 then 1
  else if c.toNat < 0x800 then 2
  else if c.toNat < 0x10000 then 3
  else 4

/-- UTF-8 byte length of a string (Rust `String::len`). -/
def byteLen (l : List Char) : Nat := (l.map utf8Size).sum

/-- First byte of the UTF-8 encoding of a character
(`input.as_bytes()[0]` for a string starting with `c`). -/
def utf8FirstByte (c : Char) : Nat :=
  if c.toNat < 0x80 then c.toNat
  else if c.toNat < 0x800 then 0xC0 + c.toNat / 64
  else if c.toNat < 0x10000 then 0xE0 + c.toNat / 4096
  else 0xF0 + c.toNat / 262144

/-- Outcome of `Context::getbyte`: a byte, a propagated I/O error `String`,
or a panic of the Rust code. -/
inductive GetByteOutcome where
  | ok (b : Nat)
  | err (msg : String)
  | panic
deriving DecidableEq, Repr

/-- `Context::getbyte`.  Mirrors the source loop: a failed `read_line`
propagates as an error; a line longer than one byte re-prompts; an empty
line reaches `input.chars().next().unwrap()`, which panics; a first
character above code point 256 re-prompts; otherwise the first byte of the
line is returned. -/
def getbyte : List (Except String (List Char)) → GetByteOutcome
  | [] => .panic
  | .error e :: _ => .err ("could not read char: " ++ e)
  | .ok input :: rest =>
    if byteLen input > 1 then
      getbyte rest
    else
      match input.head? with
      | none => .panic
      | some c =>
        if c.toNat > 256 then getbyte rest
        else .ok (utf8FirstByte c)

/-! ### The parser (`parse`, `parse_char`, `parse_loop`)

The Rust parser consumes a mutable `Iterator<Item=char>`; the model passes
the remaining character list in and out explicitly.  The recursion of
`parse_loop` is bounded by a fuel parameter decremented on every call;
`parserMain` below proves that the fuel `2 * length + 2` used by `parse`
is always sufficient, so `none` (fuel exhausted) never escapes. -/

/-- Used for parsing errors (`struct ParseError`). -/
structure ParseError where
  description : String
deriving DecidableEq, Repr

/-- Outcome of `parse_char` for a single classified character
(`enum ParseResult` in the source; the advanced stream position is returned
alongside rather than mutated in place). -/
inductive ParseResult where
  | Some (a : Ast)
  | Ignore
  | LoopEnd
  | Err (e : ParseError)

/-- Classification of one input character: the dispatch table of the
source's `parse_char` (§4.1 lexical classifier). -/
inductive CharClass where
  | op (cmd : Command)
  | lopen
  | lclose
  | ignore

/-- The character table of `parse_char`. -/
def classify : Char → CharClass
  | '>' => .op .IncPointer
  | '<' => .op .DecPointer
  | '+' => .op .IncData
  | '-' => .op .DecData
  | ',' => .op .GetByte
  | '.' => .op .PutByte
  | '[' => .lopen
  | ']' => .lclose
  | _ => .ignore

mutual

/-- `parse_char`: map one character to a `ParseResult`, delegating `[` to
`parse_loop` (which consumes the stream up to the matching `]`). -/
def parse_char : Nat → Char → List Char → Option (ParseResult × List Char)
  | 0, _, _ => none
  | fuel + 1, c, s =>
    match classify c with
    | .op cmd => some (.Some (.Op cmd), s)
    | .lopen => parse_loop fuel s []
    | .lclose => some (.LoopEnd, s)
    | .ignore => some (.Ignore, s)

/-- `parse_loop`: accumulate nodes until the matching `]` (yielding
`Some (Loop acc)`), failing with `Missing ']' character` at end of stream
and propagating nested errors. -/
def parse_loop : Nat → List Char → Program → Option (ParseResult × List Char)
  | 0, _, _ => none
  | _ + 1, [], _ => some (.Err ⟨"Missing ']' character"⟩, [])
  | fuel + 1, c :: s, acc =>
    match parse_char fuel c s with
    | none => none
    | some (.Some a, r) => parse_loop fuel r (acc ++ [a])
    | some (.Ignore, r) => parse_loop fuel r acc
    | some (.LoopEnd, r) => some (.Some (.Loop acc), r)
    | some (.Err e, r) => some (.Err e, r)

end

/-- The iteration of the source's top-level `parse` loop: append nodes,
fail with `extra ']'` on a top-level `]`, propagate nested errors, succeed
at end of stream. -/
def parseAux : Nat → List Char → Program → Option (Except ParseError Program)
  | 0, _, _ => none
  | _ + 1, [], acc => some (.ok acc)
  | fuel + 1, c :: s, acc =>
    match parse_char fuel c s with
    | none => none
    | some (.Some a, r) => parseAux fuel r (acc ++ [a])
    | some (.Ignore, r) => parseAux fuel r acc
    | some (.LoopEnd, _) => some (.error ⟨"extra ']'"⟩)
    | some (.Err e, _) => some (.error e)

/-- `parse`: run the top-level loop on the whole stream with sufficient
fuel (`parserTotal` below shows this fuel never runs out). -/
def parse (stream : List Char) : Option (Except ParseError Program) :=
  parseAux (2 * stream.length + 2) stream []

/-! ### Bracket-structure analysis of a character stream

Specification-side scan functions used to state the parser claims.
`dropToClose s d` returns the character list just after the first `]` that
closes through `d` pending levels (so for `d = 0`, after the first
unmatched `]` of `s`); `none` if no such `]` exists.  `openDepth s d`
starts with `d` pending `[` and returns how many remain pending after `s`
(a stray `]` with nothing pending is ignored, matching bracket discipline),
so `openDepth s 0 ≠ 0` says `s` contains a `[` that is never closed.
A stream is balanced iff `dropToClose s 0 = none ∧ openDepth s 0 = 0`. -/

/-- Is the character one of the six primitive-operation characters? -/
def isOp (c : Char) : Bool :=
  match classify c with
  | .op _ => true
  | _ => false

/-- Is the character `[`? -/
def isOpen (c : Char) : Bool :=
  match classify c with
  | .lopen => true
  | _ => false

/-- Number of operation characters in the stream. -/
def opsCount (s : List Char) : Nat := s.countP isOp

/-- Number of `[` characters in the stream. -/
def openCount (s : List Char) : Nat := s.countP isOpen

/-- Stream remaining after the `]` closing `d` pending levels; `none` if the
scan runs out first. -/
def dropToClose : List Char → Nat → Option (List Char)
  | [], _ => none
  | c :: s, d =>
    match classify c with
    | .lopen => dropToClose s (d + 1)
    | .lclose => if d = 0 then some s else dropToClose s (d - 1)
    | _ => dropToClose s d

/-- Number of pending (unclosed) `[` after scanning `s`, starting with `d`
pending. -/
def openDepth : List Char → Nat → Nat
  | [], d => d
  | c :: s, d =>
    match classify c with
    | .lopen => openDepth s (d + 1)
    | .lclose => openDepth s (d - 1)
    | _ => openDepth s d

/-- Total number of AST nodes of a program: every `Op` node and every `Loop`
node counts one, and a loop's body is counted recursively. -/
def Program.nodeCount : Program → Nat
  | [] => 0
  | .Op _ :: p => 1 + Program.nodeCount p
  | .Loop b :: p => 1 + Program.nodeCount b + Program.nodeCount p

/-- Bool-level transcription of the panic sources inside `Context::setdata`:
when the address is at or beyond the length, the extension size
`address - len + 1` must not overflow `usize` and the
`assert!(address < self.data.len())` after the extension (whose new length
is `len + (address - len + 1)`) must hold, which also puts the final
indexed write in bounds; otherwise the only panic source is the indexed
write, in bounds iff `address < len`. -/
def setdataNoPanic (address len : Nat) : Bool :=
  if len ≤ address then
    decide (address - len + 1 < USIZE) && decide (address < len + (address - len + 1))
  else
    decide (address < len)

/-! ### Properties -/

theorem Context.setdata_dp (c : Context) (a v : Nat) : (c.setdata a v).dp = c.dp := by
  unfold Context.setdata
  split <;> rfl

theorem Context.setdata_data (c : Context) (a v : Nat) :
    (c.setdata a v).data =
      (if c.data.length ≤ a then c.data ++ List.replicate (a - c.data.length + 1) 0
       else c.data).set a v := by
  unfold Context.setdata
  split <;> simp_all

theorem Context.setdata_length (c : Context) (a v : Nat) :
    (c.setdata a v).data.length = if c.data.length ≤ a then a + 1 else c.data.length := by
  rw [Context.setdata_data]
  split
  · simp
    omega
  · simp

theorem Context.getdata_eq (c : Context) (a : Nat) : c.getdata a = (c.data[a]?).getD 0 := by
  unfold Context.getdata
  by_cases h : c.data.length ≤ a
  · rw [if_pos h, List.getElem?_eq_none h]
    rfl
  · rw [if_neg h, List.getD_eq_getElem?_getD]

theorem Context.getdata_setdata_self (c : Context) (a v : Nat) :
    (c.setdata a v).getdata a = v := by
  rw [Context.getdata_eq, Context.setdata_data]
  by_cases h : c.data.length ≤ a
  · rw [if_pos h, List.getElem?_set_eq_of_lt v (by simp; omega)]
    rfl
  · rw [if_neg h, List.getElem?_set_eq_of_lt v (by omega)]
    rfl

theorem Context.getdata_setdata_ne (c : Context) (a v j : Nat) (hj : j ≠ a) :
    (c.setdata a v).getdata j = c.getdata j := by
  rw [Context.getdata_eq, Context.getdata_eq, Context.setdata_data,
    List.getElem?_set_ne (fun h => hj h.symm)]
  by_cases h : c.data.length ≤ a
  · rw [if_pos h]
    by_cases hjl : j < c.data.length
    · rw [List.getElem?_append_left hjl]
    · rw [List.getElem?_append_right (by omega)]
      rw [List.getElem?_eq_none (show c.data.length ≤ j by omega)]
      by_cases hja : j < a
      · rw [List.getElem?_replicate_of_lt (by omega)]
        rfl
      · rw [List.getElem?_eq_none (by simp; omega)]
  · rw [if_neg h]

theorem Context.eq_of (c1 c2 : Context) (h1 : c1.dp = c2.dp) (h2 : c1.data = c2.data) :
    c1 = c2 := by
  cases c1
  cases c2
  simp_all

theorem Context.setdata_setdata_self (c : Context) (a v w : Nat) :
    (c.setdata a v).setdata a w = c.setdata a w := by
  apply Context.eq_of
  · rw [Context.setdata_dp, Context.setdata_dp, Context.setdata_dp]
  · have hx := (c.setdata a v).setdata_data a w
    have hlen := c.setdata_length a v
    have hd := c.setdata_data a v
    by_cases h : c.data.length ≤ a
    · rw [if_pos h] at hlen
      rw [if_neg (by omega)] at hx
      rw [hx, hd, if_pos h, List.set_set, c.setdata_data a w, if_pos h]
    · rw [if_neg h] at hlen
      rw [if_neg (by omega)] at hx
      rw [hx, hd, if_neg h, List.set_set, c.setdata_data a w, if_neg h]

example : execute 9 ⟨0, []⟩ [] [.Op .IncData, .Op .IncData, .Op .PutByte]
    = some (.ok ⟨0, [2]⟩ [] [2] 0) := by decide

example : execute 9 ⟨0, [1]⟩ []
    [.Loop [.Op .IncPointer, .Op .IncData, .Op .DecPointer, .Op .DecData]]
    = some (.ok ⟨0, [0, 1]⟩ [] [] 1) := by decide

theorem ExecOut.ctx_addOut (o : List Nat) (k : Nat) (x : ExecOut) :
    (ExecOut.addOut o k x).ctx = x.ctx := by
  cases x <;> rfl

theorem Context.length_le_setdata (c : Context) (a v : Nat) :
    c.data.length ≤ (c.setdata a v).data.length := by
  rw [Context.setdata_length]
  split <;> omega

/-! One-layer unfolding equations of `execute`; each holds by definitional
reduction. -/

theorem execute_zero (c : Context) (inp : List (Except String Nat)) (p : Program) :
    execute 0 c inp p = none := rfl

theorem execute_nil (f : Nat) (c : Context) (inp : List (Except String Nat)) :
    execute (f + 1) c inp [] = some (.ok c inp [] 0) := rfl

theorem execute_incptr (f : Nat) (c : Context) (inp : List (Except String Nat)) (rest : Program) :
    execute (f + 1) c inp (.Op .IncPointer :: rest)
      = execute f { c with dp := (c.dp + 1) % USIZE } inp rest := rfl

theorem execute_decptr (f : Nat) (c : Context) (inp : List (Except String Nat)) (rest : Program) :
    execute (f + 1) c inp (.Op .DecPointer :: rest)
      = execute f { c with dp := (c.dp + (USIZE - 1)) % USIZE } inp rest := rfl

theorem execute_incdata (f : Nat) (c : Context) (inp : List (Except String Nat)) (rest : Program) :
    execute (f + 1) c inp (.Op .IncData :: rest)
      = execute f (c.set_cur_data ((c.cur_data + 1) % 256)) inp rest := rfl

theorem execute_decdata (f : Nat) (c : Context) (inp : List (Except String Nat)) (rest : Program) :
    execute (f + 1) c inp (.Op .DecData :: rest)
      = execute f (c.set_cur_data ((c.cur_data + 255) % 256)) inp rest := rfl

theorem execute_getbyte_nil (f : Nat) (c : Context) (rest : Program) :
    execute (f + 1) c [] (.Op .GetByte :: rest) = none := rfl

theorem execute_getbyte_err (f : Nat) (c : Context) (e : String)
    (inp2 : List (Except String Nat)) (rest : Program) :
    execute (f + 1) c (.error e :: inp2) (.Op .GetByte :: rest)
      = some (.err c (.error e :: inp2) [] 0 e) := rfl

theorem execute_getbyte_ok (f : Nat) (c : Context) (b : Nat)
    (inp2 : List (Except String Nat)) (rest : Program) :
    execute (f + 1) c (.ok b :: inp2) (.Op .GetByte :: rest)
      = execute f (c.set_cur_data (b % 256)) inp2 rest := rfl

theorem execute_putbyte (f : Nat) (c : Context) (inp : List (Except String Nat)) (rest : Program) :
    execute (f + 1) c inp (.Op .PutByte :: rest)
      = (execute f c inp rest).map (ExecOut.addOut [c.cur_data] 0) := rfl

theorem execute_loop_cons (f : Nat) (c : Context) (inp : List (Except String Nat))
    (body rest : Program) :
    execute (f + 1) c inp (.Loop body :: rest)
      = if c.getdata c.dp = 0 then execute f c inp rest
        else match execute f c inp body with
          | none => none
          | some (.err c2 i2 o n m) => some (.err c2 i2 o (n + 1) m)
          | some (.ok c2 i2 o n) =>
            (execute f c2 i2 (.Loop body :: rest)).map (ExecOut.addOut o (n + 1)) := rfl

/-- The tape length never decreases across any (terminating prefix of an)
`execute` run. -/
theorem execute_tape_mono :
    ∀ (fuel : Nat) (c : Context) (inp : List (Except String Nat)) (p : Program) (r : ExecOut),
    execute fuel c inp p = some r → c.data.length ≤ r.ctx.data.length := by
  intro fuel
  induction fuel with
  | zero =>
    intro c inp p r h
    rw [execute_zero] at h
    cases h
  | succ f IH =>
    intro c inp p r h
    cases p with
    | nil =>
      rw [execute_nil] at h
      injection h with h
      rw [← h]
      exact le_rfl
    | cons node rest =>
      cases node with
      | Op cmd =>
        cases cmd with
        | IncPointer =>
          rw [execute_incptr] at h
          have := IH _ _ _ _ h
          exact this
        | DecPointer =>
          rw [execute_decptr] at h
          have := IH _ _ _ _ h
          exact this
        | IncData =>
          rw [execute_incdata] at h
          have := IH _ _ _ _ h
          exact le_trans (c.length_le_setdata c.dp _) this
        | DecData =>
          rw [execute_decdata] at h
          have := IH _ _ _ _ h
          exact le_trans (c.length_le_setdata c.dp _) this
        | GetByte =>
          cases inp with
          | nil =>
            rw [execute_getbyte_nil] at h
            cases h
          | cons b inp2 =>
            cases b with
            | error e =>
              rw [execute_getbyte_err] at h
              injection h with h
              rw [← h]
              exact le_rfl
            | ok b =>
              rw [execute_getbyte_ok] at h
              have := IH _ _ _ _ h
              exact le_trans (c.length_le_setdata c.dp _) this
        | PutByte =>
          rw [execute_putbyte] at h
          cases hx : execute f c inp rest with
          | none =>
            rw [hx] at h
            cases h
          | some x =>
            rw [hx] at h
            injection h with h
            rw [← h, ExecOut.ctx_addOut]
            have := IH _ _ _ _ hx
            exact this
      | Loop body =>
        rw [execute_loop_cons] at h
        split at h
        · have := IH _ _ _ _ h
          exact this
        · cases hb : execute f c inp body with
          | none =>
            rw [hb] at h
            cases h
          | some x =>
            rw [hb] at h
            cases x with
            | err c2 i2 o n m =>
              injection h with h
              rw [← h]
              have := IH _ _ _ _ hb
              exact this
            | ok c2 i2 o n =>
              have h2 : (execute f c2 i2 (.Loop body :: rest)).map (ExecOut.addOut o (n + 1))
                  = some r := h
              cases hx : execute f c2 i2 (.Loop body :: rest) with
              | none =>
                rw [hx] at h2
                cases h2
              | some y =>
                rw [hx] at h2
                injection h2 with h2
                rw [← h2, ExecOut.ctx_addOut]
                have hm1 := IH _ _ _ _ hb
                have hm2 := IH _ _ _ _ hx
                exact le_trans hm1 hm2

/-- Complete characterization of running the loop program `[-]` on a cell
holding `N < 256`: with fuel below `N + 2` (fewer than `N` available loop
iterations) the run is unfinished, and with fuel `N + 2` or more it
terminates with exactly `N` recorded iterations, the cell zeroed (untouched
if it already was zero), no input consumed and no output. -/
theorem execute_loop_dec (N : Nat) (hN : N < 256) :
    ∀ (c : Context) (inp : List (Except String Nat)) (fuel : Nat), c.getdata c.dp = N →
    (execute fuel c inp [.Loop [.Op .DecData]] = none ∧ fuel < N + 2) ∨
    (execute fuel c inp [.Loop [.Op .DecData]]
        = some (.ok (if N = 0 then c else c.setdata c.dp 0) inp [] N) ∧ N + 2 ≤ fuel) := by
  induction N with
  | zero =>
    intro c inp fuel hc
    match fuel with
    | 0 => exact Or.inl ⟨rfl, by omega⟩
    | 1 =>
      refine Or.inl ⟨?_, by omega⟩
      rw [execute_loop_cons, if_pos hc]
      rfl
    | (f + 2) =>
      refine Or.inr ⟨?_, by omega⟩
      rw [execute_loop_cons, if_pos hc]
      rfl
  | succ N IH =>
    intro c inp fuel hc
    have hne : ¬ c.getdata c.dp = 0 := by omega
    match fuel with
    | 0 => exact Or.inl ⟨rfl, by omega⟩
    | 1 =>
      refine Or.inl ⟨?_, by omega⟩
      rw [execute_loop_cons, if_neg hne]
      rfl
    | 2 =>
      refine Or.inl ⟨?_, by omega⟩
      rw [execute_loop_cons, if_neg hne]
      rfl
    | (g + 3) =>
      have hc1 : c.set_cur_data ((c.cur_data + 255) % 256) = c.setdata c.dp N := by
        unfold Context.set_cur_data Context.cur_data
        rw [hc, show N + 1 + 255 = N + 256 from by omega, Nat.add_mod_right,
          Nat.mod_eq_of_lt (by omega)]
      have hbody : execute (g + 2) c inp [.Op .DecData]
          = some (.ok (c.setdata c.dp N) inp [] 0) := by
        rw [execute_decdata, hc1]
        rfl
      have hget1 : (c.setdata c.dp N).getdata (c.setdata c.dp N).dp = N := by
        rw [Context.setdata_dp, Context.getdata_setdata_self]
      rcases IH (by omega) (c.setdata c.dp N) inp (g + 2) hget1 with ⟨hnone, hf⟩ | ⟨hsome, hf⟩
      · refine Or.inl ⟨?_, by omega⟩
        rw [execute_loop_cons, if_neg hne, hbody]
        show (execute (g + 2) (c.setdata c.dp N) inp [.Loop [.Op .DecData]]).map
          (ExecOut.addOut [] (0 + 1)) = none
        rw [hnone]
        rfl
      · refine Or.inr ⟨?_, by omega⟩
        have hfin : (if N = 0 then c.setdata c.dp N
            else (c.setdata c.dp N).setdata (c.setdata c.dp N).dp 0) = c.setdata c.dp 0 := by
          by_cases h0 : N = 0
          · rw [if_pos h0, h0]
          · rw [if_neg h0, Context.setdata_dp, Context.setdata_setdata_self]
        rw [execute_loop_cons, if_neg hne, hbody]
        show (execute (g + 2) (c.setdata c.dp N) inp [.Loop [.Op .DecData]]).map
          (ExecOut.addOut [] (0 + 1)) = some (.ok (c.setdata c.dp 0) inp [] (N + 1))
        rw [hsome, hfin]
        show some (ExecOut.ok (c.setdata c.dp 0) inp [] (1 + N))
          = some (ExecOut.ok (c.setdata c.dp 0) inp [] (N + 1))
        rw [Nat.add_comm]

example : getbyte [.ok ['a', '\n'], .ok ['\n']] = .ok 10 := by decide
example : getbyte [.error "broken pipe"] = .err "could not read char: broken pipe" := by decide
example : getbyte [.ok []] = .panic := by decide

example : parse ['+', '-', 'x'] = some (.ok [.Op .IncData, .Op .DecData]) := rfl
example : parse ['[', '+', ']'] = some (.ok [.Loop [.Op .IncData]]) := rfl
example : parse [']'] = some (.error ⟨"extra ']'"⟩) := rfl
example : parse ['['] = some (.error ⟨"Missing ']' character"⟩) := rfl
example : parse ['[', ']', ']'] = some (.error ⟨"extra ']'"⟩) := rfl
example : parse ['[', '['] = some (.error ⟨"Missing ']' character"⟩) := rfl

theorem Program.nodeCount_nil : Program.nodeCount [] = 0 := by
  simp [Program.nodeCount]

theorem Program.nodeCount_cons_op (cmd : Command) (p : Program) :
    Program.nodeCount (.Op cmd :: p) = 1 + p.nodeCount := by
  simp [Program.nodeCount]

theorem Program.nodeCount_cons_loop (b : Program) (p : Program) :
    Program.nodeCount (.Loop b :: p) = 1 + b.nodeCount + p.nodeCount := by
  simp [Program.nodeCount]

theorem isOp_of_op {c : Char} {cmd : Command} (h : classify c = .op cmd) :
    isOp c = true ∧ isOpen c = false := by
  simp [isOp, isOpen, h]

theorem flags_lopen {c : Char} (h : classify c = .lopen) :
    isOp c = false ∧ isOpen c = true := by
  simp [isOp, isOpen, h]

theorem flags_lclose {c : Char} (h : classify c = .lclose) :
    isOp c = false ∧ isOpen c = false := by
  simp [isOp, isOpen, h]

theorem flags_ignore {c : Char} (h : classify c = .ignore) :
    isOp c = false ∧ isOpen c = false := by
  simp [isOp, isOpen, h]

theorem opsCount_cons (c : Char) (s : List Char) :
    opsCount (c :: s) = opsCount s + (if isOp c then 1 else 0) := by
  simp [opsCount, List.countP_cons]

theorem openCount_cons (c : Char) (s : List Char) :
    openCount (c :: s) = openCount s + (if isOpen c then 1 else 0) := by
  simp [openCount, List.countP_cons]

theorem dropToClose_cons_op {c : Char} {cmd : Command} (s : List Char) (d : Nat)
    (h : classify c = .op cmd) : dropToClose (c :: s) d = dropToClose s d := by
  simp only [dropToClose, h]

theorem dropToClose_cons_ignore {c : Char} (s : List Char) (d : Nat)
    (h : classify c = .ignore) : dropToClose (c :: s) d = dropToClose s d := by
  simp only [dropToClose, h]

theorem dropToClose_cons_lopen {c : Char} (s : List Char) (d : Nat)
    (h : classify c = .lopen) : dropToClose (c :: s) d = dropToClose s (d + 1) := by
  simp only [dropToClose, h]

theorem dropToClose_cons_lclose {c : Char} (s : List Char) (d : Nat)
    (h : classify c = .lclose) :
    dropToClose (c :: s) d = if d = 0 then some s else dropToClose s (d - 1) := by
  simp only [dropToClose, h]

theorem openDepth_cons_op {c : Char} {cmd : Command} (s : List Char) (d : Nat)
    (h : classify c = .op cmd) : openDepth (c :: s) d = openDepth s d := by
  simp only [openDepth, h]

theorem openDepth_cons_ignore {c : Char} (s : List Char) (d : Nat)
    (h : classify c = .ignore) : openDepth (c :: s) d = openDepth s d := by
  simp only [openDepth, h]

theorem openDepth_cons_lopen {c : Char} (s : List Char) (d : Nat)
    (h : classify c = .lopen) : openDepth (c :: s) d = openDepth s (d + 1) := by
  simp only [openDepth, h]

theorem openDepth_cons_lclose {c : Char} (s : List Char) (d : Nat)
    (h : classify c = .lclose) : openDepth (c :: s) d = openDepth s (d - 1) := by
  simp only [openDepth, h]

/-- The stream returned by a successful `dropToClose` is a strict suffix. -/
theorem dropToClose_length :
    ∀ (s : List Char) (d : Nat) (r : List Char), dropToClose s d = some r →
      r.length < s.length := by
  intro s
  induction s with
  | nil =>
    intro d r h
    simp [dropToClose] at h
  | cons c s IH =>
    intro d r h
    rcases hcl : classify c with cmd | _ | _ | _
    · rw [dropToClose_cons_op s d hcl] at h
      exact Nat.lt_succ_of_lt (IH d r h)
    · rw [dropToClose_cons_lopen s d hcl] at h
      exact Nat.lt_succ_of_lt (IH (d + 1) r h)
    · rw [dropToClose_cons_lclose s d hcl] at h
      split at h
      · injection h with h
        rw [← h]
        exact Nat.lt_succ_self _
      · exact Nat.lt_succ_of_lt (IH (d - 1) r h)
    · rw [dropToClose_cons_ignore s d hcl] at h
      exact Nat.lt_succ_of_lt (IH d r h)

/-- Searching for the closer of `d + 1` pending levels first finds the
closer of the innermost level, then keeps searching in the remainder. -/
theorem dropToClose_succ :
    ∀ (n : Nat) (s : List Char), s.length ≤ n → ∀ (d : Nat),
      dropToClose s (d + 1) = (dropToClose s 0).bind (fun r => dropToClose r d) := by
  intro n
  induction n with
  | zero =>
    intro s hs d
    have : s = [] := List.eq_nil_of_length_eq_zero (by omega)
    rw [this]
    rfl
  | succ n IH =>
    intro s hs d
    cases s with
    | nil => rfl
    | cons c s =>
      have hs' : s.length ≤ n := by
        simp at hs
        omega
      rcases hcl : classify c with cmd | _ | _ | _
      · rw [dropToClose_cons_op s (d + 1) hcl, dropToClose_cons_op s 0 hcl]
        exact IH s hs' d
      · rw [dropToClose_cons_lopen s (d + 1) hcl, dropToClose_cons_lopen s 0 hcl]
        rw [IH s hs' (d + 1), IH s hs' 0]
        cases h0 : dropToClose s 0 with
        | none => rfl
        | some r1 =>
          show dropToClose r1 (d + 1)
            = (dropToClose r1 0).bind (fun r => dropToClose r d)
          exact IH r1 (by have := dropToClose_length s 0 r1 h0; omega) d
      · rw [dropToClose_cons_lclose s (d + 1) hcl, dropToClose_cons_lclose s 0 hcl]
        rw [if_neg (by omega), if_pos rfl]
        simp
      · rw [dropToClose_cons_ignore s (d + 1) hcl, dropToClose_cons_ignore s 0 hcl]
        exact IH s hs' d

/-- If no closer exists for the current level, at least one pending `[`
survives the scan. -/
theorem openDepth_pos_of_dropToClose_none :
    ∀ (s : List Char) (d : Nat), dropToClose s d = none → 1 ≤ openDepth s (d + 1) := by
  intro s
  induction s with
  | nil =>
    intro d _
    simp [openDepth]
  | cons c s IH =>
    intro d h
    rcases hcl : classify c with cmd | _ | _ | _
    · rw [dropToClose_cons_op s d hcl] at h
      rw [openDepth_cons_op s (d + 1) hcl]
      exact IH d h
    · rw [dropToClose_cons_lopen s d hcl] at h
      rw [openDepth_cons_lopen s (d + 1) hcl]
      exact IH (d + 1) h
    · rw [dropToClose_cons_lclose s d hcl] at h
      rw [openDepth_cons_lclose s (d + 1) hcl]
      split at h
      · cases h
      · rename_i hd0
        have : d - 1 + 1 = d + 1 - 1 := by omega
        rw [← this]
        exact IH (d - 1) h
    · rw [dropToClose_cons_ignore s d hcl] at h
      rw [openDepth_cons_ignore s (d + 1) hcl]
      exact IH d h

/-- Passing the closer of the innermost pending level decrements the pending
count: the pending `[` count of `s` from `d + 1` equals that of the
remainder after the closer from `d`. -/
theorem openDepth_dropToClose :
    ∀ (n : Nat) (s : List Char), s.length ≤ n → ∀ (d : Nat) (r : List Char),
      dropToClose s 0 = some r → openDepth s (d + 1) = openDepth r d := by
  intro n
  induction n with
  | zero =>
    intro s hs d r h
    have : s = [] := List.eq_nil_of_length_eq_zero (by omega)
    rw [this] at h
    simp [dropToClose] at h
  | succ n IH =>
    intro s hs d r h
    cases s with
    | nil => simp [dropToClose] at h
    | cons c s =>
      have hs' : s.length ≤ n := by
        simp at hs
        omega
      rcases hcl : classify c with cmd | _ | _ | _
      · rw [dropToClose_cons_op s 0 hcl] at h
        rw [openDepth_cons_op s (d + 1) hcl]
        exact IH s hs' d r h
      · rw [dropToClose_cons_lopen s 0 hcl] at h
        rw [openDepth_cons_lopen s (d + 1) hcl]
        rw [dropToClose_succ s.length s le_rfl 0] at h
        cases h0 : dropToClose s 0 with
        | none =>
          rw [h0] at h
          simp at h
        | some r1 =>
          rw [h0] at h
          have h1 : dropToClose r1 0 = some r := h
          have e1 : openDepth s (d + 1 + 1) = openDepth r1 (d + 1) := IH s hs' (d + 1) r1 h0
          have hr1 : r1.length ≤ n := by
            have := dropToClose_length s 0 r1 h0
            omega
          rw [e1]
          exact IH r1 hr1 d r h1
      · rw [dropToClose_cons_lclose s 0 hcl, if_pos rfl] at h
        injection h with h
        rw [openDepth_cons_lclose s (d + 1) hcl, ← h]
        simp
      · rw [dropToClose_cons_ignore s 0 hcl] at h
        rw [openDepth_cons_ignore s (d + 1) hcl]
        exact IH s hs' d r h

/-! One-layer unfolding equations of the parser functions. -/

theorem parse_char_succ (f : Nat) (c : Char) (s : List Char) :
    parse_char (f + 1) c s =
      match classify c with
      | .op cmd => some (.Some (.Op cmd), s)
      | .lopen => parse_loop f s []
      | .lclose => some (.LoopEnd, s)
      | .ignore => some (.Ignore, s) := rfl

theorem parse_char_op (f : Nat) {c : Char} (s : List Char) {cmd : Command}
    (h : classify c = .op cmd) : parse_char (f + 1) c s = some (.Some (.Op cmd), s) := by
  rw [parse_char_succ, h]

theorem parse_char_lopen (f : Nat) {c : Char} (s : List Char)
    (h : classify c = .lopen) : parse_char (f + 1) c s = parse_loop f s [] := by
  rw [parse_char_succ, h]

theorem parse_char_lclose (f : Nat) {c : Char} (s : List Char)
    (h : classify c = .lclose) : parse_char (f + 1) c s = some (.LoopEnd, s) := by
  rw [parse_char_succ, h]

theorem parse_char_ignore (f : Nat) {c : Char} (s : List Char)
    (h : classify c = .ignore) : parse_char (f + 1) c s = some (.Ignore, s) := by
  rw [parse_char_succ, h]

theorem parse_loop_nil (f : Nat) (acc : Program) :
    parse_loop (f + 1) [] acc = some (.Err ⟨"Missing ']' character"⟩, []) := rfl

theorem parse_loop_cons (f : Nat) (c : Char) (s : List Char) (acc : Program) :
    parse_loop (f + 1) (c :: s) acc =
      match parse_char f c s with
      | none => none
      | some (.Some a, r) => parse_loop f r (acc ++ [a])
      | some (.Ignore, r) => parse_loop f r acc
      | some (.LoopEnd, r) => some (.Some (.Loop acc), r)
      | some (.Err e, r) => some (.Err e, r) := rfl

theorem parse_loop_cons_op (f : Nat) {c : Char} (s : List Char) (acc : Program)
    {cmd : Command} (h : classify c = .op cmd) :
    parse_loop (f + 2) (c :: s) acc = parse_loop (f + 1) s (acc ++ [.Op cmd]) := by
  rw [parse_loop_cons, parse_char_op f s h]

theorem parse_loop_cons_ignore (f : Nat) {c : Char} (s : List Char) (acc : Program)
    (h : classify c = .ignore) :
    parse_loop (f + 2) (c :: s) acc = parse_loop (f + 1) s acc := by
  rw [parse_loop_cons, parse_char_ignore f s h]

theorem parse_loop_cons_lclose (f : Nat) {c : Char} (s : List Char) (acc : Program)
    (h : classify c = .lclose) :
    parse_loop (f + 2) (c :: s) acc = some (.Some (.Loop acc), s) := by
  rw [parse_loop_cons, parse_char_lclose f s h]

theorem parse_loop_cons_lopen (f : Nat) {c : Char} (s : List Char) (acc : Program)
    (h : classify c = .lopen) :
    parse_loop (f + 2) (c :: s) acc =
      match parse_loop f s [] with
      | none => none
      | some (.Some a, r) => parse_loop (f + 1) r (acc ++ [a])
      | some (.Ignore, r) => parse_loop (f + 1) r acc
      | some (.LoopEnd, r) => some (.Some (.Loop acc), r)
      | some (.Err e, r) => some (.Err e, r) := by
  rw [parse_loop_cons, parse_char_lopen f s h]

theorem parseAux_nil (f : Nat) (acc : Program) :
    parseAux (f + 1) [] acc = some (.ok acc) := rfl

theorem parseAux_cons (f : Nat) (c : Char) (s : List Char) (acc : Program) :
    parseAux (f + 1) (c :: s) acc =
      match parse_char f c s with
      | none => none
      | some (.Some a, r) => parseAux f r (acc ++ [a])
      | some (.Ignore, r) => parseAux f r acc
      | some (.LoopEnd, _) => some (.error ⟨"extra ']'"⟩)
      | some (.Err e, _) => some (.error e) := rfl

theorem parseAux_cons_op (f : Nat) {c : Char} (s : List Char) (acc : Program)
    {cmd : Command} (h : classify c = .op cmd) :
    parseAux (f + 2) (c :: s) acc = parseAux (f + 1) s (acc ++ [.Op cmd]) := by
  rw [parseAux_cons, parse_char_op f s h]

theorem parseAux_cons_ignore (f : Nat) {c : Char} (s : List Char) (acc : Program)
    (h : classify c = .ignore) :
    parseAux (f + 2) (c :: s) acc = parseAux (f + 1) s acc := by
  rw [parseAux_cons, parse_char_ignore f s h]

theorem parseAux_cons_lclose (f : Nat) {c : Char} (s : List Char) (acc : Program)
    (h : classify c = .lclose) :
    parseAux (f + 2) (c :: s) acc = some (.error ⟨"extra ']'"⟩) := by
  rw [parseAux_cons, parse_char_lclose f s h]

theorem parseAux_cons_lopen (f : Nat) {c : Char} (s : List Char) (acc : Program)
    (h : classify c = .lopen) :
    parseAux (f + 2) (c :: s) acc =
      match parse_loop f s [] with
      | none => none
      | some (.Some a, r) => parseAux (f + 1) r (acc ++ [a])
      | some (.Ignore, r) => parseAux (f + 1) r acc
      | some (.LoopEnd, _) => some (.error ⟨"extra ']'"⟩)
      | some (.Err e, _) => some (.error e) := by
  rw [parseAux_cons, parse_char_lopen f s h]

/-- Main parser lemma, by strong induction on the stream length.  For every
stream `s` and accumulator, with fuel at least `2 * length + 2`:
`parse_loop` finds the closer of the current loop exactly when
`dropToClose s 0` does (returning the loop node built from the consumed
segment and the stream after the closer, with the segment's node count
accounted by the operation and `[` characters consumed), and otherwise
fails with `Missing ']' character`; `parseAux` fails with `extra ']'`
exactly when a stray `]` exists, otherwise fails with
`Missing ']' character` exactly when an unclosed `[` remains, and otherwise
succeeds with a program whose node count is the number of operation
characters plus the number of `[` characters. -/
theorem parserMain : ∀ (n : Nat) (s : List Char), s.length < n →
    (∀ (f : Nat) (acc : Program), 2 * s.length + 2 ≤ f →
      (∀ r, dropToClose s 0 = some r →
        ∃ q, parse_loop f s acc = some (.Some (.Loop (acc ++ q)), r)
          ∧ Program.nodeCount q + opsCount r + openCount r = opsCount s + openCount s)
      ∧ (dropToClose s 0 = none →
        ∃ r2, parse_loop f s acc = some (.Err ⟨"Missing ']' character"⟩, r2)))
    ∧ (∀ (f : Nat) (acc : Program), 2 * s.length + 2 ≤ f →
      (∀ r, dropToClose s 0 = some r → parseAux f s acc = some (.error ⟨"extra ']'"⟩))
      ∧ (dropToClose s 0 = none → openDepth s 0 ≠ 0 →
          parseAux f s acc = some (.error ⟨"Missing ']' character"⟩))
      ∧ (dropToClose s 0 = none → openDepth s 0 = 0 →
          ∃ q, parseAux f s acc = some (.ok (acc ++ q))
            ∧ Program.nodeCount q = opsCount s + openCount s)) := by
  intro n
  induction n with
  | zero =>
    intro s hs
    exact absurd hs (by omega)
  | succ n IH =>
    intro s hs
    cases s with
    | nil =>
      constructor
      · intro f acc hf
        obtain ⟨g, rfl⟩ : ∃ g, f = g + 1 := ⟨f - 1, by omega⟩
        constructor
        · intro r hr
          simp [dropToClose] at hr
        · intro _
          exact ⟨[], parse_loop_nil g acc⟩
      · intro f acc hf
        obtain ⟨g, rfl⟩ : ∃ g, f = g + 1 := ⟨f - 1, by omega⟩
        refine ⟨?_, ?_, ?_⟩
        · intro r hr
          simp [dropToClose] at hr
        · intro _ hod
          exact absurd rfl hod
        · intro _ _
          refine ⟨[], ?_, by simp [Program.nodeCount_nil, opsCount, openCount]⟩
          rw [List.append_nil]
          exact parseAux_nil g acc
    | cons c s' =>
      have hs' : s'.length < n := by
        simp at hs
        omega
      rcases hcl : classify c with cmd | _ | _ | _
      -- operation character
      · have hdrop : dropToClose (c :: s') 0 = dropToClose s' 0 := dropToClose_cons_op s' 0 hcl
        have hopen : openDepth (c :: s') 0 = openDepth s' 0 := openDepth_cons_op s' 0 hcl
        have hflag := isOp_of_op hcl
        have hops : opsCount (c :: s') = opsCount s' + 1 := by
          rw [opsCount_cons, hflag.1]
          simp
        have hopc : openCount (c :: s') = openCount s' := by
          rw [openCount_cons, hflag.2]
          simp
        constructor
        · intro f acc hf
          obtain ⟨g, rfl⟩ : ∃ g, f = g + 2 := ⟨f - 2, by omega⟩
          have hg : 2 * s'.length + 2 ≤ g + 1 := by
            simp at hf
            omega
          have hloop := (IH s' hs').1 (g + 1) (acc ++ [.Op cmd]) hg
          constructor
          · intro r hr
            rw [hdrop] at hr
            obtain ⟨q1, heq, hcnt⟩ := hloop.1 r hr
            refine ⟨.Op cmd :: q1, ?_, ?_⟩
            · rw [parse_loop_cons_op g s' acc hcl, heq, List.append_assoc]
              rfl
            · rw [Program.nodeCount_cons_op, hops, hopc]
              omega
          · intro hnone
            rw [hdrop] at hnone
            obtain ⟨r2, heq⟩ := hloop.2 hnone
            refine ⟨r2, ?_⟩
            rw [parse_loop_cons_op g s' acc hcl]
            exact heq
        · intro f acc hf
          obtain ⟨g, rfl⟩ : ∃ g, f = g + 2 := ⟨f - 2, by omega⟩
          have hg : 2 * s'.length + 2 ≤ g + 1 := by
            simp at hf
            omega
          have htop := (IH s' hs').2 (g + 1) (acc ++ [.Op cmd]) hg
          refine ⟨?_, ?_, ?_⟩
          · intro r hr
            rw [hdrop] at hr
            rw [parseAux_cons_op g s' acc hcl]
            exact htop.1 r hr
          · intro hnone hod
            rw [hdrop] at hnone
            rw [hopen] at hod
            rw [parseAux_cons_op g s' acc hcl]
            exact htop.2.1 hnone hod
          · intro hnone hod
            rw [hdrop] at hnone
            rw [hopen] at hod
            obtain ⟨q1, heq, hcnt⟩ := htop.2.2 hnone hod
            refine ⟨.Op cmd :: q1, ?_, ?_⟩
            · rw [parseAux_cons_op g s' acc hcl, heq, List.append_assoc]
              rfl
            · rw [Program.nodeCount_cons_op, hops, hopc]
              omega
      -- `[` : nested loop parse
      · have hflag := flags_lopen hcl
        have hdrop1 : dropToClose (c :: s') 0 = dropToClose s' 1 := dropToClose_cons_lopen s' 0 hcl
        have hdrop2 : dropToClose s' 1 = (dropToClose s' 0).bind (fun r => dropToClose r 0) :=
          dropToClose_succ s'.length s' le_rfl 0
        have hopen1 : openDepth (c :: s') 0 = openDepth s' 1 := openDepth_cons_lopen s' 0 hcl
        have hops : opsCount (c :: s') = opsCount s' := by
          rw [opsCount_cons, hflag.1]
          simp
        have hopc : openCount (c :: s') = openCount s' + 1 := by
          rw [openCount_cons, hflag.2]
          simp
        cases hin : dropToClose s' 0 with
        | none =>
          have hmiss : dropToClose (c :: s') 0 = none := by
            simp [hdrop1, hdrop2, hin]
          have hodp : 1 ≤ openDepth s' 1 := openDepth_pos_of_dropToClose_none s' 0 hin
          constructor
          · intro f acc hf
            obtain ⟨g, rfl⟩ : ∃ g, f = g + 2 := ⟨f - 2, by omega⟩
            have hg : 2 * s'.length + 2 ≤ g := by
              simp at hf
              omega
            obtain ⟨r2, hinner⟩ := ((IH s' hs').1 g [] hg).2 hin
            constructor
            · intro r hr
              rw [hmiss] at hr
              simp at hr
            · intro _
              refine ⟨r2, ?_⟩
              rw [parse_loop_cons_lopen g s' acc hcl, hinner]
          · intro f acc hf
            obtain ⟨g, rfl⟩ : ∃ g, f = g + 2 := ⟨f - 2, by omega⟩
            have hg : 2 * s'.length + 2 ≤ g := by
              simp at hf
              omega
            obtain ⟨r2, hinner⟩ := ((IH s' hs').1 g [] hg).2 hin
            refine ⟨?_, ?_, ?_⟩
            · intro r hr
              rw [hmiss] at hr
              simp at hr
            · intro _ _
              rw [parseAux_cons_lopen g s' acc hcl, hinner]
            · intro _ hod0
              rw [hopen1] at hod0
              exact absurd hod0 (by omega)
        | some r1 =>
          have hr1len : r1.length < s'.length := dropToClose_length s' 0 r1 hin
          have hdropc : dropToClose (c :: s') 0 = dropToClose r1 0 := by
            rw [hdrop1, hdrop2, hin]
            rfl
          have hopeneq : openDepth s' 1 = openDepth r1 0 :=
            openDepth_dropToClose s'.length s' le_rfl 0 r1 hin
          constructor
          · intro f acc hf
            obtain ⟨g, rfl⟩ : ∃ g, f = g + 2 := ⟨f - 2, by omega⟩
            have hgi : 2 * s'.length + 2 ≤ g := by
              simp at hf
              omega
            obtain ⟨q1, hinner, hcnt1⟩ := ((IH s' hs').1 g [] hgi).1 r1 hin
            rw [List.nil_append] at hinner
            have hstep : parse_loop (g + 2) (c :: s') acc
                = parse_loop (g + 1) r1 (acc ++ [.Loop q1]) := by
              rw [parse_loop_cons_lopen g s' acc hcl, hinner]
            have hgr : 2 * r1.length + 2 ≤ g + 1 := by omega
            have hIHr := IH r1 (by omega)
            constructor
            · intro r hr
              rw [hdropc] at hr
              obtain ⟨q2, heq2, hcnt2⟩ := (hIHr.1 (g + 1) (acc ++ [.Loop q1]) hgr).1 r hr
              refine ⟨.Loop q1 :: q2, ?_, ?_⟩
              · rw [hstep, heq2, List.append_assoc]
                rfl
              · rw [Program.nodeCount_cons_loop, hops, hopc]
                omega
            · intro hnone
              rw [hdropc] at hnone
              obtain ⟨r2, heq2⟩ := (hIHr.1 (g + 1) (acc ++ [.Loop q1]) hgr).2 hnone
              refine ⟨r2, ?_⟩
              rw [hstep]
              exact heq2
          · intro f acc hf
            obtain ⟨g, rfl⟩ : ∃ g, f = g + 2 := ⟨f - 2, by omega⟩
            have hgi : 2 * s'.length + 2 ≤ g := by
              simp at hf
              omega
            obtain ⟨q1, hinner, hcnt1⟩ := ((IH s' hs').1 g [] hgi).1 r1 hin
            rw [List.nil_append] at hinner
            have hstep : parseAux (g + 2) (c :: s') acc
                = parseAux (g + 1) r1 (acc ++ [.Loop q1]) := by
              rw [parseAux_cons_lopen g s' acc hcl, hinner]
            have hgr : 2 * r1.length + 2 ≤ g + 1 := by omega
            have hIHr := IH r1 (by omega)
            refine ⟨?_, ?_, ?_⟩
            · intro r hr
              rw [hdropc] at hr
              rw [hstep]
              exact (hIHr.2 (g + 1) (acc ++ [.Loop q1]) hgr).1 r hr
            · intro hnone hod
              rw [hdropc] at hnone
              rw [hopen1, hopeneq] at hod
              rw [hstep]
              exact (hIHr.2 (g + 1) (acc ++ [.Loop q1]) hgr).2.1 hnone hod
            · intro hnone hod
              rw [hdropc] at hnone
              rw [hopen1, hopeneq] at hod
              obtain ⟨q2, heq2, hcnt2⟩ :=
                (hIHr.2 (g + 1) (acc ++ [.Loop q1]) hgr).2.2 hnone hod
              refine ⟨.Loop q1 :: q2, ?_, ?_⟩
              · rw [hstep, heq2, List.append_assoc]
                rfl
              · rw [Program.nodeCount_cons_loop, hops, hopc]
                omega
      -- `]`
      · have hflag := flags_lclose hcl
        have hdrop : dropToClose (c :: s') 0 = some s' := by
          rw [dropToClose_cons_lclose s' 0 hcl, if_pos rfl]
        constructor
        · intro f acc hf
          obtain ⟨g, rfl⟩ : ∃ g, f = g + 2 := ⟨f - 2, by omega⟩
          constructor
          · intro r hr
            rw [hdrop] at hr
            injection hr with hr
            subst hr
            refine ⟨[], ?_, ?_⟩
            · rw [List.append_nil]
              exact parse_loop_cons_lclose g s' acc hcl
            · rw [Program.nodeCount_nil, opsCount_cons, openCount_cons, hflag.1, hflag.2]
              simp
          · intro hnone
            rw [hdrop] at hnone
            simp at hnone
        · intro f acc hf
          obtain ⟨g, rfl⟩ : ∃ g, f = g + 2 := ⟨f - 2, by omega⟩
          refine ⟨?_, ?_, ?_⟩
          · intro r hr
            exact parseAux_cons_lclose g s' acc hcl
          · intro hnone _
            rw [hdrop] at hnone
            simp at hnone
          · intro hnone _
            rw [hdrop] at hnone
            simp at hnone
      -- ignored character
      · have hdrop : dropToClose (c :: s') 0 = dropToClose s' 0 := dropToClose_cons_ignore s' 0 hcl
        have hopen : openDepth (c :: s') 0 = openDepth s' 0 := openDepth_cons_ignore s' 0 hcl
        have hflag := flags_ignore hcl
        have hops : opsCount (c :: s') = opsCount s' := by
          rw [opsCount_cons, hflag.1]
          simp
        have hopc : openCount (c :: s') = openCount s' := by
          rw [openCount_cons, hflag.2]
          simp
        constructor
        · intro f acc hf
          obtain ⟨g, rfl⟩ : ∃ g, f = g + 2 := ⟨f - 2, by omega⟩
          have hg : 2 * s'.length + 2 ≤ g + 1 := by
            simp at hf
            omega
          have hloop := (IH s' hs').1 (g + 1) acc hg
          constructor
          · intro r hr
            rw [hdrop] at hr
            obtain ⟨q1, heq, hcnt⟩ := hloop.1 r hr
            refine ⟨q1, ?_, ?_⟩
            · rw [parse_loop_cons_ignore g s' acc hcl]
              exact heq
            · rw [hops, hopc]
              omega
          · intro hnone
            rw [hdrop] at hnone
            obtain ⟨r2, heq⟩ := hloop.2 hnone
            refine ⟨r2, ?_⟩
            rw [parse_loop_cons_ignore g s' acc hcl]
            exact heq
        · intro f acc hf
          obtain ⟨g, rfl⟩ : ∃ g, f = g + 2 := ⟨f - 2, by omega⟩
          have hg : 2 * s'.length + 2 ≤ g + 1 := by
            simp at hf
            omega
          have htop := (IH s' hs').2 (g + 1) acc hg
          refine ⟨?_, ?_, ?_⟩
          · intro r hr
            rw [hdrop] at hr
            rw [parseAux_cons_ignore g s' acc hcl]
            exact htop.1 r hr
          · intro hnone hod
            rw [hdrop] at hnone
            rw [hopen] at hod
            rw [parseAux_cons_ignore g s' acc hcl]
            exact htop.2.1 hnone hod
          · intro hnone hod
            rw [hdrop] at hnone
            rw [hopen] at hod
            obtain ⟨q1, heq, hcnt⟩ := htop.2.2 hnone hod
            refine ⟨q1, ?_, ?_⟩
            · rw [parseAux_cons_ignore g s' acc hcl]
              exact heq
            · rw [hops, hopc]
              omega

theorem Context.getdata_ge (c : Context) (a : Nat) (h : c.data.length ≤ a) :
    c.getdata a = 0 := by
  unfold Context.getdata
  rw [if_pos h]

theorem Context.getdata_lt (c : Context) (a : Nat) (h : a < c.data.length) :
    c.getdata a = c.data.get ⟨a, h⟩ := by
  unfold Context.getdata
  rw [if_neg (by omega), List.getD_eq_getElem?_getD, List.getElem?_eq_getElem h]
  rfl

/-! ### The claims -/

/-- C1: executing a `Loop` node re-reads the cell at the current data
pointer before every iteration and re-executes the body while that cell is
non-zero; if the condition cell is already zero the body runs zero times;
and the loop program `[-]` on a cell holding `N > 0` terminates after
exactly `N` iterations (the `iters` component of the outcome) and leaves
the cell at 0.  The second conjunct is the one-iteration unfolding: run the
body once, then re-dispatch on the same `Loop` node (whose guard re-reads
the then-current cell). -/
theorem C1_loop_semantics :
    (∀ (f : Nat) (c : Context) (inp : List (Except String Nat)) (body rest : Program),
      c.getdata c.dp = 0 →
      execute (f + 1) c inp (.Loop body :: rest) = execute f c inp rest)
    ∧ (∀ (f : Nat) (c : Context) (inp : List (Except String Nat)) (body rest : Program),
      c.getdata c.dp ≠ 0 →
      execute (f + 1) c inp (.Loop body :: rest)
        = match execute f c inp body with
          | none => none
          | some (.err c2 i2 o n m) => some (.err c2 i2 o (n + 1) m)
          | some (.ok c2 i2 o n) =>
            (execute f c2 i2 (.Loop body :: rest)).map (ExecOut.addOut o (n + 1)))
    ∧ (∀ (N : Nat) (c : Context) (inp : List (Except String Nat)),
      0 < N → N < 256 → c.getdata c.dp = N →
      execute (N + 2) c inp [.Loop [.Op .DecData]] = some (.ok (c.setdata c.dp 0) inp [] N)
      ∧ ∀ (f : Nat) (r : ExecOut), execute f c inp [.Loop [.Op .DecData]] = some r →
          r = .ok (c.setdata c.dp 0) inp [] N) := by
  refine ⟨?_, ?_, ?_⟩
  · intro f c inp body rest h
    rw [execute_loop_cons, if_pos h]
  · intro f c inp body rest h
    rw [execute_loop_cons, if_neg h]
  · intro N c inp hN h256 hc
    constructor
    · rcases execute_loop_dec N h256 c inp (N + 2) hc with ⟨_, hlt⟩ | ⟨hsome, _⟩
      · omega
      · rw [hsome, if_neg (by omega)]
    · intro f r hr
      rcases execute_loop_dec N h256 c inp f hc with ⟨hnone, _⟩ | ⟨hsome, _⟩
      · rw [hnone] at hr
        cases hr
      · rw [hsome, if_neg (by omega)] at hr
        injection hr with hr
        exact hr.symm

/-- C1 witness: the zero-cell loop runs zero iterations, and `[-]` on a
cell holding 2 terminates with 2 recorded iterations and the cell at 0. -/
theorem C1_loop_semantics_witness :
    Context.getdata ⟨0, []⟩ 0 = 0
    ∧ execute 1 ⟨0, []⟩ [] [.Loop [.Op .DecData]] = execute 0 ⟨0, []⟩ [] []
    ∧ (0 : Nat) < 2 ∧ (2 : Nat) < 256 ∧ Context.getdata ⟨0, [2]⟩ 0 = 2
    ∧ execute 4 ⟨0, [2]⟩ [] [.Loop [.Op .DecData]] = some (.ok ⟨0, [0]⟩ [] [] 2) :=
  ⟨rfl, C1_loop_semantics.1 0 ⟨0, []⟩ [] [.Op .DecData] [] rfl, by decide, by decide, rfl,
    (C1_loop_semantics.2.2 2 ⟨0, [2]⟩ [] (by decide) (by decide) rfl).1⟩

/-- C2 counterexample: the stream `][` contains a `[` that is never closed
(`openDepth ≠ 0`), yet `parse` fails with the extra-closing-marker kind, not
the unterminated-loop kind, so the claim's second clause is false as
stated. -/
theorem C2_counterexample :
    openDepth [']', '['] 0 ≠ 0
    ∧ parse [']', '['] = some (.error ⟨"extra ']'"⟩)
    ∧ ParseError.mk "extra ']'" ≠ ParseError.mk "Missing ']' character" :=
  ⟨by decide, rfl, by decide⟩

/-- C2 (amended): a stream containing a `]` with no matching unconsumed `[`
before it (a `]` reached at bracket depth 0, i.e. `dropToClose s 0` is
`some`) fails with `extra ']'`; a stream with no such `]` but with a `[`
never closed before end-of-stream fails with `Missing ']' character`; every
balanced stream parses successfully; and these two are the only failure
kinds.  (The amendment: the unterminated-loop clause additionally requires
that no stray `]` precedes, since the left-to-right parse reports the stray
`]` first — see `C2_counterexample`.) -/
theorem C2_amended :
    (∀ s : List Char, (dropToClose s 0).isSome = true → parse s = some (.error ⟨"extra ']'"⟩))
    ∧ (∀ s : List Char, dropToClose s 0 = none → openDepth s 0 ≠ 0 →
        parse s = some (.error ⟨"Missing ']' character"⟩))
    ∧ (∀ s : List Char, dropToClose s 0 = none → openDepth s 0 = 0 →
        ∃ p, parse s = some (.ok p))
    ∧ (∀ (s : List Char) (e : ParseError), parse s = some (.error e) →
        e = ⟨"extra ']'"⟩ ∨ e = ⟨"Missing ']' character"⟩) := by
  have main := fun s : List Char =>
    (parserMain (s.length + 1) s (by omega)).2 (2 * s.length + 2) [] le_rfl
  refine ⟨?_, ?_, ?_, ?_⟩
  · intro s hs
    cases hsome : dropToClose s 0 with
    | none =>
      rw [hsome] at hs
      simp at hs
    | some r =>
      exact (main s).1 r hsome
  · intro s h1 h2
    exact (main s).2.1 h1 h2
  · intro s h1 h2
    obtain ⟨q, heq, _⟩ := (main s).2.2 h1 h2
    refine ⟨q, ?_⟩
    have h3 : parse s = some (.ok ([] ++ q)) := heq
    rw [List.nil_append] at h3
    exact h3
  · intro s e he
    cases hsome : dropToClose s 0 with
    | some r =>
      have h2 : parse s = some (.error ⟨"extra ']'"⟩) := (main s).1 r hsome
      rw [he] at h2
      left
      injection h2 with h2
      injection h2 with h2
    | none =>
      by_cases hod : openDepth s 0 = 0
      · obtain ⟨q, heq, _⟩ := (main s).2.2 hsome hod
        have h2 : parse s = some (.ok ([] ++ q)) := heq
        rw [he] at h2
        simp at h2
      · have h2 : parse s = some (.error ⟨"Missing ']' character"⟩) := (main s).2.1 hsome hod
        rw [he] at h2
        right
        injection h2 with h2
        injection h2 with h2

/-- C2 witness: each clause of the amended claim at a concrete stream. -/
theorem C2_amended_witness :
    (dropToClose [']'] 0).isSome = true
    ∧ parse [']'] = some (.error ⟨"extra ']'"⟩)
    ∧ dropToClose ['['] 0 = none ∧ openDepth ['['] 0 ≠ 0
    ∧ parse ['['] = some (.error ⟨"Missing ']' character"⟩)
    ∧ dropToClose ['[', ']'] 0 = none ∧ openDepth ['[', ']'] 0 = 0
    ∧ (∃ p, parse ['[', ']'] = some (.ok p))
    ∧ (ParseError.mk "extra ']'" = ⟨"extra ']'"⟩
        ∨ ParseError.mk "extra ']'" = ⟨"Missing ']' character"⟩) :=
  ⟨rfl, C2_amended.1 [']'] rfl, rfl, by decide, C2_amended.2.1 ['['] rfl (by decide),
    rfl, rfl, C2_amended.2.2.1 ['[', ']'] rfl rfl,
    C2_amended.2.2.2 [']'] ⟨"extra ']'"⟩ (C2_amended.1 [']'] rfl)⟩

/-- C3: `setdata` makes the written address valid (growing to exactly
`address + 1` cells when the address was at or beyond the length), a
subsequent `getdata` at that address returns the written value, the
zero-fill gap reads as 0, and previously written lower addresses are
undisturbed. -/
theorem C3_setdata_write (c : Context) (a v : Nat) (_hv : v < 256) :
    (c.setdata a v).getdata a = v
    ∧ (c.data.length ≤ a → (c.setdata a v).data.length = a + 1)
    ∧ (∀ j, c.data.length ≤ j → j < a → (c.setdata a v).getdata j = 0)
    ∧ (∀ j, j < c.data.length → j < a → (c.setdata a v).getdata j = c.getdata j) := by
  refine ⟨Context.getdata_setdata_self c a v, ?_, ?_, ?_⟩
  · intro h
    rw [Context.setdata_length, if_pos h]
  · intro j hj1 hj2
    rw [Context.getdata_setdata_ne c a v j (by omega)]
    exact c.getdata_ge j hj1
  · intro j hj1 hj2
    exact Context.getdata_setdata_ne c a v j (by omega)

/-- C3 witness: writing 9 at address 4 of a 2-cell tape. -/
theorem C3_setdata_write_witness :
    (9 : Nat) < 256
    ∧ ((⟨0, [1, 2]⟩ : Context).setdata 4 9).getdata 4 = 9
    ∧ ((⟨0, [1, 2]⟩ : Context).setdata 4 9).getdata 1 = (⟨0, [1, 2]⟩ : Context).getdata 1 :=
  ⟨by decide, (C3_setdata_write ⟨0, [1, 2]⟩ 4 9 (by decide)).1,
    (C3_setdata_write ⟨0, [1, 2]⟩ 4 9 (by decide)).2.2.2 1 (by decide) (by decide)⟩

/-- C4 counterexample: `[]` is balanced and parses to one `Loop` node, but
has zero characters that are neither ignored nor brackets, so the node
count does not equal that character count. -/
theorem C4_counterexample :
    dropToClose ['[', ']'] 0 = none ∧ openDepth ['[', ']'] 0 = 0
    ∧ parse ['[', ']'] = some (.ok [.Loop []])
    ∧ Program.nodeCount [.Loop []] = 1
    ∧ opsCount ['[', ']'] = 0 := by
  refine ⟨rfl, rfl, rfl, ?_, rfl⟩
  simp [Program.nodeCount]

/-- C4 (amended): for every balanced input, `parse` succeeds and the node
count of the resulting tree equals the number of non-ignored non-bracket
characters plus the number of `[` characters (each balanced bracket pair
contributes one `Loop` node — see `C4_counterexample`). -/
theorem C4_amended (s : List Char) (h1 : dropToClose s 0 = none) (h2 : openDepth s 0 = 0) :
    ∃ p, parse s = some (.ok p)
      ∧ Program.nodeCount p = opsCount s + openCount s := by
  obtain ⟨q, heq, hcnt⟩ :=
    ((parserMain (s.length + 1) s (by omega)).2 (2 * s.length + 2) [] le_rfl).2.2 h1 h2
  refine ⟨q, ?_, hcnt⟩
  have h3 : parse s = some (.ok ([] ++ q)) := heq
  rw [List.nil_append] at h3
  exact h3

/-- C4 witness: the amended count on `[+]`. -/
theorem C4_amended_witness :
    dropToClose ['[', '+', ']'] 0 = none ∧ openDepth ['[', '+', ']'] 0 = 0
    ∧ ∃ p, parse ['[', '+', ']'] = some (.ok p)
        ∧ Program.nodeCount p = opsCount ['[', '+', ']'] + openCount ['[', '+', ']'] :=
  ⟨rfl, rfl, C4_amended ['[', '+', ']'] rfl rfl⟩

/-- C5: cell arithmetic is modulo 256 (increment of 255 gives 0, decrement
of 0 gives 255) and pointer arithmetic wraps modulo the platform unsigned
range (increment at `USIZE - 1` gives 0, decrement at 0 gives
`USIZE - 1`). -/
theorem C5_wrapping :
    (∀ (f : Nat) (c : Context) (inp : List (Except String Nat)), c.getdata c.dp = 255 →
      execute (f + 2) c inp [.Op .IncData] = some (.ok (c.setdata c.dp 0) inp [] 0))
    ∧ (∀ (f : Nat) (c : Context) (inp : List (Except String Nat)), c.getdata c.dp = 0 →
      execute (f + 2) c inp [.Op .DecData] = some (.ok (c.setdata c.dp 255) inp [] 0))
    ∧ (∀ (f : Nat) (c : Context) (inp : List (Except String Nat)), c.dp = USIZE - 1 →
      execute (f + 2) c inp [.Op .IncPointer] = some (.ok ⟨0, c.data⟩ inp [] 0))
    ∧ (∀ (f : Nat) (c : Context) (inp : List (Except String Nat)), c.dp = 0 →
      execute (f + 2) c inp [.Op .DecPointer] = some (.ok ⟨USIZE - 1, c.data⟩ inp [] 0)) := by
  have hU : 0 < USIZE := by decide
  refine ⟨?_, ?_, ?_, ?_⟩
  · intro f c inp h
    rw [execute_incdata]
    have hset : c.set_cur_data ((c.cur_data + 1) % 256) = c.setdata c.dp 0 := by
      unfold Context.set_cur_data Context.cur_data
      rw [h]
    rw [hset]
    exact execute_nil f _ inp
  · intro f c inp h
    rw [execute_decdata]
    have hset : c.set_cur_data ((c.cur_data + 255) % 256) = c.setdata c.dp 255 := by
      unfold Context.set_cur_data Context.cur_data
      rw [h]
    rw [hset]
    exact execute_nil f _ inp
  · intro f c inp h
    rw [execute_incptr]
    have hdp : (c.dp + 1) % USIZE = 0 := by
      rw [h, Nat.sub_add_cancel hU, Nat.mod_self]
    rw [hdp]
    exact execute_nil f _ inp
  · intro f c inp h
    rw [execute_decptr]
    have hdp : (c.dp + (USIZE - 1)) % USIZE = USIZE - 1 := by
      rw [h, Nat.zero_add, Nat.mod_eq_of_lt (by omega)]
    rw [hdp]
    exact execute_nil f _ inp

/-- C5 witness: all four wrap cases at concrete contexts. -/
theorem C5_wrapping_witness :
    Context.getdata ⟨0, [255]⟩ 0 = 255
    ∧ execute 2 ⟨0, [255]⟩ [] [.Op .IncData] = some (.ok ⟨0, [0]⟩ [] [] 0)
    ∧ Context.getdata ⟨0, []⟩ 0 = 0
    ∧ execute 2 ⟨0, []⟩ [] [.Op .DecData] = some (.ok ⟨0, [255]⟩ [] [] 0)
    ∧ (⟨USIZE - 1, []⟩ : Context).dp = USIZE - 1
    ∧ execute 2 ⟨USIZE - 1, []⟩ [] [.Op .IncPointer] = some (.ok ⟨0, []⟩ [] [] 0)
    ∧ (⟨0, []⟩ : Context).dp = 0
    ∧ execute 2 ⟨0, []⟩ [] [.Op .DecPointer] = some (.ok ⟨USIZE - 1, []⟩ [] [] 0) :=
  ⟨rfl, C5_wrapping.1 0 ⟨0, [255]⟩ [] rfl, rfl, C5_wrapping.2.1 0 ⟨0, []⟩ [] rfl,
    rfl, C5_wrapping.2.2.1 0 ⟨USIZE - 1, []⟩ [] rfl,
    rfl, C5_wrapping.2.2.2 0 ⟨0, []⟩ [] rfl⟩

/-- C6: evaluation of the model at the failing input.  An empty input line
(what `read_line` produces at end of input, and what an exhausted input
list models) drives `getbyte` into `input.chars().next().unwrap()` with an
empty string, which panics — contradicting the claim that `getbyte` never
panics, in particular on an empty supplied line. -/
theorem C6_empty_line_panics :
    getbyte [.ok []] = .panic ∧ getbyte [] = .panic :=
  ⟨rfl, rfl⟩

/-- C7: `getdata` returns 0 at or beyond the materialized length and the
stored byte below it; as a total pure function of the context it never
errors, never panics, and cannot grow the tape. -/
theorem C7_getdata_total (c : Context) (a : Nat) :
    (c.data.length ≤ a → c.getdata a = 0)
    ∧ (∀ h : a < c.data.length, c.getdata a = c.data.get ⟨a, h⟩) :=
  ⟨c.getdata_ge a, c.getdata_lt a⟩

/-- C7 witness: reading past the end of a 1-cell tape gives 0, and reading
inside gives the stored byte. -/
theorem C7_getdata_total_witness :
    (⟨0, [7]⟩ : Context).data.length ≤ 5
    ∧ (⟨0, [7]⟩ : Context).getdata 5 = 0
    ∧ (⟨0, [7]⟩ : Context).getdata 0 = 7 :=
  ⟨by decide, (C7_getdata_total ⟨0, [7]⟩ 5).1 (by decide),
    (C7_getdata_total ⟨0, [7]⟩ 0).2 (by decide)⟩

/-- C8: `parse` is total on every character stream — it returns either a
complete `Program` or a `ParseError`, with nothing in between.  (In this
pure embedding the absence of partial mutation is structural: `parse`
returns its whole result by value and touches no other state; this theorem
discharges the remaining content, that the result is always one of the two
stated forms and the fuel never runs out.) -/
theorem C8_parse_total (s : List Char) :
    (∃ p, parse s = some (.ok p)) ∨ (∃ e, parse s = some (.error e)) := by
  have main := (parserMain (s.length + 1) s (by omega)).2 (2 * s.length + 2) [] le_rfl
  cases hsome : dropToClose s 0 with
  | some r =>
    right
    have h2 : parse s = some (.error ⟨"extra ']'"⟩) := main.1 r hsome
    exact ⟨⟨"extra ']'"⟩, h2⟩
  | none =>
    by_cases hod : openDepth s 0 = 0
    · left
      obtain ⟨q, heq, _⟩ := main.2.2 hsome hod
      have h2 : parse s = some (.ok ([] ++ q)) := heq
      exact ⟨[] ++ q, h2⟩
    · right
      have h2 : parse s = some (.error ⟨"Missing ']' character"⟩) := main.2.1 hsome hod
      exact ⟨⟨"Missing ']' character"⟩, h2⟩

/-- C9: the tape never shrinks (across `setdata` and across every
terminating `execute` run), every read is total with the stated value, and
a write beyond the current end extends the tape to exactly the written
address plus one. -/
theorem C9_tape_invariants :
    (∀ (c : Context) (a v : Nat),
      c.data.length ≤ (c.setdata a v).data.length
      ∧ (c.data.length ≤ a → (c.setdata a v).data.length = a + 1))
    ∧ (∀ (c : Context) (a : Nat),
      c.getdata a = if h : a < c.data.length then c.data.get ⟨a, h⟩ else 0)
    ∧ (∀ (fuel : Nat) (c : Context) (inp : List (Except String Nat)) (p : Program) (r : ExecOut),
      execute fuel c inp p = some r → c.data.length ≤ r.ctx.data.length) := by
  refine ⟨?_, ?_, execute_tape_mono⟩
  · intro c a v
    refine ⟨Context.length_le_setdata c a v, ?_⟩
    intro h
    rw [Context.setdata_length, if_pos h]
  · intro c a
    split
    · exact c.getdata_lt a (by assumption)
    · exact c.getdata_ge a (by omega)

/-- C9 witness: one `+` from the empty tape grows it to one cell, and the
length is monotone across that run. -/
theorem C9_tape_invariants_witness :
    execute 3 ⟨0, []⟩ [] [.Op .IncData] = some (.ok ⟨0, [1]⟩ [] [] 0)
    ∧ (⟨0, []⟩ : Context).data.length ≤ (ExecOut.ok ⟨0, [1]⟩ [] [] 0).ctx.data.length :=
  ⟨rfl, C9_tape_invariants.2.2 3 ⟨0, []⟩ [] [.Op .IncData] (.ok ⟨0, [1]⟩ [] [] 0) rfl⟩

/-- C10: for every address strictly below the maximum `usize` value
(`USIZE - 1`) and every prior tape length, the length computation
`address - len + 1` does not overflow, the internal assertion holds after
the zero-fill extension, and `setdata` completes without panicking. -/
theorem C10_setdata_no_panic (address len : Nat) (h : address < USIZE - 1) :
    setdataNoPanic address len = true := by
  have h2 : USIZE = 18446744073709551616 := by
    rw [USIZE]
    norm_num
  rw [h2] at h
  unfold setdataNoPanic
  rw [h2]
  split
  · rw [Bool.and_eq_true, decide_eq_true_eq, decide_eq_true_eq]
    omega
  · rw [decide_eq_true_eq]
    omega

/-- C10 witness: address 7 against a length-3 tape. -/
theorem C10_setdata_no_panic_witness :
    7 < USIZE - 1 ∧ setdataNoPanic 7 3 = true :=
  ⟨by decide, C10_setdata_no_panic 7 3 (by decide)⟩

end Brainfsk
